import Mathlib

/-!
Verification of the key-value persistence layer of this repository
(toolkit/components/kvstore and toolkit/components/xulstore, plus the
NotificationDB operation queue in dom/notification).

The Rust implementation of the nsIKeyValueDatabase engine is not part of the
tree fragment (only its IDL consumers, JS wrappers and xpcshell tests are), so
the storage core (value codec, database handle operations, enumerator) is
modelled from the specification, with behaviour pinned by the repository's own
tests (test_kvstore.js) where the tests are explicit about it.  The XULStore
layers (XULStore.jsm, XULStore.js) and the NotificationDB task queue are
embedded directly from the JavaScript sources.
-/

namespace KV

/-- Data-level decoding failures of the value codec (spec section 7:
DataError::UnknownType and DataError::Truncated). -/
inductive DataError
  | unknownType (tag : Nat)
  | truncated
deriving DecidableEq

/-- Error taxonomy of the storage layer, following spec section 7. -/
inductive Err
  | notFound
  | typeMismatch
  | dataError (e : DataError)
  | illegalValue
  | conflict
  | engineFailure
  | noMoreElements
deriving DecidableEq

/-- Type tags of the closed value model. -/
inductive Tag
  | nullT
  | boolT
  | intT
  | floatT
  | textT
deriving DecidableEq

/-- Modelled from the spec: the closed set of storable scalar values
(spec section 3, Value).  A 64-bit float is represented by its IEEE-754
bit pattern (a natural number below 2^64), because the spec requires floats
to round-trip bit-for-bit, which makes the bit pattern the faithful
observable. -/
inductive Value
  | nullV
  | boolV (b : Bool)
  | intV (i : Int)
  | floatV (bits : Nat)
  | textV (s : String)
deriving DecidableEq

/-- Tag of a value. -/
def tagOf : Value → Tag
  | .nullV => .nullT
  | .boolV _ => .boolT
  | .intV _ => .intT
  | .floatV _ => .floatT
  | .textV _ => .textT

/-- Well-formedness of a value: the integer fits in a signed 64-bit word and
the float bit pattern fits in 64 bits. -/
def wfValue : Value → Prop
  | .intV i => -(2 ^ 63) ≤ i ∧ i < 2 ^ 63
  | .floatV bits => bits < 2 ^ 64
  | _ => True

instance : DecidablePred wfValue := by
  intro v
  cases v <;> simp [wfValue] <;> infer_instance

/-- Fixed-width little-endian byte encoding of a natural number. -/
def natToLE : Nat → Nat → List Nat
  | 0, _ => []
  | c + 1, n => n % 256 :: natToLE c (n / 256)

/-- Little-endian byte decoding. -/
def natFromLE : List Nat → Nat
  | [] => 0
  | b :: rest => b + 256 * natFromLE rest

theorem length_natToLE (c n : Nat) : (natToLE c n).length = c := by
  induction c generalizing n with
  | zero => rfl
  | succ c ih => simp [natToLE, ih]

theorem natFromLE_natToLE (c n : Nat) : natFromLE (natToLE c n) = n % 256 ^ c := by
  induction c generalizing n with
  | zero => simp [natToLE, natFromLE, Nat.mod_one]
  | succ c ih =>
    rw [natToLE, natFromLE, ih, pow_succ, mul_comm (256 ^ c) 256, Nat.mod_mul]

/-- UTF-8 encoding of a single Unicode code point (as a natural number). -/
def utf8EncodeNat (c : Nat) : List Nat :=
  if c < 0x80 then [c]
  else if c < 0x800 then [0xC0 + c / 0x40, 0x80 + c % 0x40]
  else if c < 0x10000 then
    [0xE0 + c / 0x1000, 0x80 + c / 0x40 % 0x40, 0x80 + c % 0x40]
  else
    [0xF0 + c / 0x40000, 0x80 + c / 0x1000 % 0x40, 0x80 + c / 0x40 % 0x40,
     0x80 + c % 0x40]

/-- Continuation-byte check for UTF-8 decoding. -/
def isCont (b : Nat) : Prop := 0x80 ≤ b ∧ b < 0xC0

instance : DecidablePred isCont := fun _ => instDecidableAnd

/-- Decoding of the continuation bytes of a two-byte UTF-8 sequence;
returns the code point and the count of continuation bytes consumed. -/
def utf8Cont1 (b : Nat) : List Nat → Option (Nat × Nat)
  | b1 :: _ =>
    if isCont b1 then some ((b - 0xC0) * 0x40 + (b1 - 0x80), 1) else none
  | [] => none

/-- Decoding of the continuation bytes of a three-byte UTF-8 sequence. -/
def utf8Cont2 (b : Nat) : List Nat → Option (Nat × Nat)
  | b1 :: b2 :: _ =>
    if isCont b1 ∧ isCont b2 then
      some ((b - 0xE0) * 0x1000 + (b1 - 0x80) * 0x40 + (b2 - 0x80), 2)
    else none
  | _ => none

/-- Decoding of the continuation bytes of a four-byte UTF-8 sequence. -/
def utf8Cont3 (b : Nat) : List Nat → Option (Nat × Nat)
  | b1 :: b2 :: b3 :: _ =>
    if isCont b1 ∧ isCont b2 ∧ isCont b3 then
      some ((b - 0xF0) * 0x40000 + (b1 - 0x80) * 0x1000 + (b2 - 0x80) * 0x40 +
        (b3 - 0x80), 3)
    else none
  | _ => none

/-- Single-step UTF-8 decoding given a lead byte and the following bytes;
returns the decoded code point and the count of continuation bytes consumed. -/
def utf8DecodeStep (b : Nat) (rest : List Nat) : Option (Nat × Nat) :=
  if b < 0x80 then some (b, 0)
  else if 0xC2 ≤ b ∧ b < 0xE0 then utf8Cont1 b rest
  else if 0xE0 ≤ b ∧ b < 0xF0 then utf8Cont2 b rest
  else if 0xF0 ≤ b ∧ b < 0xF8 then utf8Cont3 b rest
  else none

/-- UTF-8 decoding of a byte list into code points; fails on malformed input. -/
def utf8DecodeNats : List Nat → Option (List Nat)
  | [] => some []
  | b :: rest =>
    match utf8DecodeStep b rest with
    | none => none
    | some (c, k) => (utf8DecodeNats (rest.drop k)).map (c :: ·)
termination_by l => l.length
decreasing_by simp [List.length_drop]; omega

theorem utf8DecodeNats_encode (c : Nat) (hc : c < 0x110000) (rest : List Nat) :
    utf8DecodeNats (utf8EncodeNat c ++ rest) = (utf8DecodeNats rest).map (c :: ·) := by
  unfold utf8EncodeNat
  by_cases h1 : c < 0x80
  · rw [if_pos h1]
    show utf8DecodeNats (c :: rest) = _
    rw [utf8DecodeNats, utf8DecodeStep, if_pos h1]
    simp only [List.drop_zero]
  · rw [if_neg h1]
    by_cases h2 : c < 0x800
    · rw [if_pos h2]
      show utf8DecodeNats (_ :: _ :: rest) = _
      rw [utf8DecodeNats, utf8DecodeStep, if_neg (by omega), if_pos (by omega),
        utf8Cont1, if_pos (by simp [isCont]; omega)]
      have he : (0xC0 + c / 0x40 - 0xC0) * 0x40 + (0x80 + c % 0x40 - 0x80) = c := by
        omega
      simp only [he, List.drop_succ_cons, List.drop_zero]
    · rw [if_neg h2]
      by_cases h3 : c < 0x10000
      · rw [if_pos h3]
        show utf8DecodeNats (_ :: _ :: _ :: rest) = _
        rw [utf8DecodeNats, utf8DecodeStep, if_neg (by omega), if_neg (by omega),
          if_pos (by omega), utf8Cont2,
          if_pos (by simp [isCont]; omega)]
        have he : (0xE0 + c / 0x1000 - 0xE0) * 0x1000 +
            (0x80 + c / 0x40 % 0x40 - 0x80) * 0x40 + (0x80 + c % 0x40 - 0x80) = c := by
          omega
        simp only [he, List.drop_succ_cons, List.drop_zero]
      · rw [if_neg h3]
        show utf8DecodeNats (_ :: _ :: _ :: _ :: rest) = _
        rw [utf8DecodeNats, utf8DecodeStep, if_neg (by omega), if_neg (by omega),
          if_neg (by omega), if_pos (by omega), utf8Cont3,
          if_pos (by simp [isCont]; omega)]
        have he : (0xF0 + c / 0x40000 - 0xF0) * 0x40000 +
            (0x80 + c / 0x1000 % 0x40 - 0x80) * 0x1000 +
            (0x80 + c / 0x40 % 0x40 - 0x80) * 0x40 + (0x80 + c % 0x40 - 0x80) = c := by
          omega
        simp only [he, List.drop_succ_cons, List.drop_zero]

theorem char_toNat_lt (c : Char) : c.toNat < 0x110000 := by
  rcases c.valid with h | ⟨_, h2⟩
  · exact Nat.lt_trans h (by decide)
  · exact h2

/-- UTF-8 encoding of a character list. -/
def utf8EncodeList : List Char → List Nat
  | [] => []
  | ch :: rest => utf8EncodeNat ch.toNat ++ utf8EncodeList rest

/-- UTF-8 decoding of a byte list into a string. -/
def utf8DecodeString (l : List Nat) : Option String :=
  (utf8DecodeNats l).map (fun cps => ⟨cps.map Char.ofNat⟩)

theorem utf8DecodeNats_encodeList (cs : List Char) :
    utf8DecodeNats (utf8EncodeList cs) = some (cs.map Char.toNat) := by
  induction cs with
  | nil => simp [utf8EncodeList, utf8DecodeNats]
  | cons ch rest ih =>
    rw [utf8EncodeList, utf8DecodeNats_encode ch.toNat (char_toNat_lt ch), ih]
    simp

theorem utf8DecodeString_encodeList (s : String) :
    utf8DecodeString (utf8EncodeList s.data) = some s := by
  rw [utf8DecodeString, utf8DecodeNats_encodeList]
  simp only [Option.map_some']
  congr 1
  cases s with
  | mk data =>
    simp only [List.map_map]
    show String.mk (data.map fun c => Char.ofNat c.toNat) = String.mk data
    congr 1
    calc data.map (fun c => Char.ofNat c.toNat) = data.map id := by
          apply List.map_congr_left
          intro c _
          exact Char.ofNat_toNat c
      _ = data := List.map_id data

/-- Modelled from the spec: the value codec's encoder (spec section 4.1).
The wire format is a single leading type tag byte followed by a type-specific
payload: no bytes for null, one byte for bool, eight little-endian bytes for
the 64-bit integer (two's complement) and for the float bit pattern, and the
raw unterminated UTF-8 bytes for text.  Tag byte values start at 1; tag 0 is
unassigned, matching the repository test that decodes an engine catalog
record as DataError(UnknownType(0)).  The Rust implementation of the codec is
not in the tree. -/
def encode : Value → List Nat
  | .nullV => [1]
  | .boolV b => [2, if b then 1 else 0]
  | .intV i => 3 :: natToLE 8 (i % (2 ^ 64 : Int)).toNat
  | .floatV bits => 4 :: natToLE 8 bits
  | .textV s => 5 :: utf8EncodeList s.data

/-- Modelled from the spec: the value codec's decoder (spec section 4.1).
Fails with UnknownType for an unrecognized tag byte and with Truncated for a
payload shorter (or otherwise differently shaped) than the tag requires. -/
def decode : List Nat → Except DataError Value
  | [] => .error .truncated
  | tag :: payload =>
    if tag = 1 then
      if payload = [] then .ok .nullV else .error .truncated
    else if tag = 2 then
      if payload = [0] then .ok (.boolV false)
      else if payload = [1] then .ok (.boolV true)
      else .error .truncated
    else if tag = 3 then
      if payload.length = 8 then
        let n := natFromLE payload
        .ok (.intV (if n < 2 ^ 63 then (n : Int) else (n : Int) - 2 ^ 64))
      else .error .truncated
    else if tag = 4 then
      if payload.length = 8 then .ok (.floatV (natFromLE payload))
      else .error .truncated
    else if tag = 5 then
      (utf8DecodeString payload).elim (.error .truncated) (fun s => .ok (.textV s))
    else .error (.unknownType tag)

theorem decode_encode (v : Value) (h : wfValue v) : decode (encode v) = .ok v := by
  cases v with
  | nullV => rfl
  | boolV b => cases b <;> rfl
  | intV i =>
    obtain ⟨hlo, hhi⟩ := h
    rw [encode, decode]
    rw [if_neg (by omega), if_neg (by omega), if_pos rfl,
      if_pos (length_natToLE 8 _)]
    simp only [natFromLE_natToLE]
    have hmod : ((i % (2 ^ 64 : Int)).toNat : Nat) % 256 ^ 8 = (i % (2 ^ 64 : Int)).toNat := by
      apply Nat.mod_eq_of_lt
      have : (i % (2 ^ 64 : Int)) < 2 ^ 64 := Int.emod_lt_of_pos i (by norm_num)
      omega
    rw [hmod]
    by_cases hn : i < 0
    · have hval : (i % (2 ^ 64 : Int)) = i + 2 ^ 64 := by omega
      rw [if_neg (by omega)]
      congr 1
      congr 1
      omega
    · have hval : (i % (2 ^ 64 : Int)) = i := by omega
      rw [if_pos (by omega)]
      congr 1
      congr 1
      omega
  | floatV bits =>
    rw [encode, decode]
    rw [if_neg (by omega), if_neg (by omega), if_neg (by omega), if_pos rfl,
      if_pos (length_natToLE 8 _)]
    rw [natFromLE_natToLE, Nat.mod_eq_of_lt (by exact h)]
  | textV s =>
    rw [encode, decode]
    rw [if_neg (by omega), if_neg (by omega), if_neg (by omega), if_neg (by omega),
      if_pos rfl]
    rw [utf8DecodeString_encodeList]
    rfl

/-!
Key ordering.  The engine orders keys by their raw bytes; for UTF-8 encoded
text, byte-lexicographic order coincides with code-point-lexicographic order,
so keys are compared here character list by character list through the code
points.  (The built-in String order of Lean is the same order but is not
kernel-computable, hence these structural comparison functions.)
-/

/-- Strict lexicographic comparison of character lists by code point. -/
def charsLt : List Char → List Char → Bool
  | [], [] => false
  | [], _ :: _ => true
  | _ :: _, [] => false
  | a :: as, b :: bs =>
    decide (a.toNat < b.toNat) || (decide (a.toNat = b.toNat) && charsLt as bs)

/-- Lexicographic comparison (less or equal) of character lists by code
point. -/
def charsLe : List Char → List Char → Bool
  | [], _ => true
  | _ :: _, [] => false
  | a :: as, b :: bs =>
    decide (a.toNat < b.toNat) || (decide (a.toNat = b.toNat) && charsLe as bs)

theorem charsLe_of_lt : ∀ x y : List Char, charsLt x y = true → charsLe x y = true := by
  intro x
  induction x with
  | nil => intro y _; cases y <;> rfl
  | cons a as ih =>
    intro y h
    cases y with
    | nil => simp [charsLt] at h
    | cons b bs =>
      simp only [charsLt, Bool.or_eq_true, Bool.and_eq_true, decide_eq_true_eq] at h
      simp only [charsLe, Bool.or_eq_true, Bool.and_eq_true, decide_eq_true_eq]
      rcases h with h | ⟨h1, h2⟩
      · exact Or.inl h
      · exact Or.inr ⟨h1, ih bs h2⟩

theorem charsLe_trans : ∀ x y z : List Char,
    charsLe x y = true → charsLe y z = true → charsLe x z = true := by
  intro x
  induction x with
  | nil => intro y z _ _; rfl
  | cons a as ih =>
    intro y z hxy hyz
    cases y with
    | nil => simp [charsLe] at hxy
    | cons b bs =>
      cases z with
      | nil => simp [charsLe] at hyz
      | cons c cs =>
        simp only [charsLe, Bool.or_eq_true, Bool.and_eq_true,
          decide_eq_true_eq] at hxy hyz ⊢
        rcases hxy with h1 | ⟨h1, h1r⟩ <;> rcases hyz with h2 | ⟨h2, h2r⟩
        · exact Or.inl (by omega)
        · exact Or.inl (by omega)
        · exact Or.inl (by omega)
        · exact Or.inr ⟨by omega, ih bs cs h1r h2r⟩

theorem charsLt_eq_false_of_le : ∀ x y : List Char,
    charsLe x y = true → charsLt y x = false := by
  intro x
  induction x with
  | nil =>
    intro y _
    cases y with
    | nil => rfl
    | cons b bs => rfl
  | cons a as ih =>
    intro y h
    cases y with
    | nil => simp [charsLe] at h
    | cons b bs =>
      simp only [charsLe, Bool.or_eq_true, Bool.and_eq_true, decide_eq_true_eq] at h
      rcases h with h1 | ⟨h1, h2⟩
      · have hb : decide (b.toNat < a.toNat) = false := by simp; omega
        have hq : decide (b.toNat = a.toNat) = false := by simp; omega
        simp [charsLt, hb, hq]
      · have hb : decide (b.toNat < a.toNat) = false := by simp; omega
        have hq : charsLt bs as = false := ih bs h2
        simp [charsLt, hb, hq]

/-!
The database handle.  The engine stores raw byte values under string keys in
ascending lexicographic key order; the handle encodes a Value on put and
decodes on get.  Modelled from the spec (section 4.2) because the Rust
implementation of nsIKeyValueDatabase is not in the tree; the sorted
association list stands for the engine's ordered key space.
-/

/-- Storage state of one (sub)database: key/raw-value pairs kept in ascending
key order with unique keys. -/
abbrev Db := List (String × List Nat)

/-- Well-formedness of a database state: keys strictly ascending (hence
unique), as the engine's ordered key space guarantees. -/
def wfDb (db : Db) : Prop :=
  db.Pairwise (fun a b => charsLt a.1.data b.1.data = true)

instance : DecidablePred wfDb := fun db =>
  List.instDecidablePairwise db

/-- Raw insert keeping the key order; overwrites an existing key. -/
def putRaw : Db → String → List Nat → Db
  | [], k, v => [(k, v)]
  | (k1, v1) :: rest, k, v =>
    if charsLt k.data k1.data then (k, v) :: (k1, v1) :: rest
    else if k = k1 then (k, v) :: rest
    else (k1, v1) :: putRaw rest k v

/-- Raw lookup. -/
def getRaw : Db → String → Option (List Nat)
  | [], _ => none
  | (k1, v1) :: rest, k => if k = k1 then some v1 else getRaw rest k

/-- Existence check (spec: has, no decode). -/
def hasKey (db : Db) (k : String) : Bool := (getRaw db k).isSome

/-- Removal of a key; total, and a no-op when the key is absent. -/
def eraseKey (db : Db) (k : String) : Db := db.filter (fun p => p.1 ≠ k)

/-- Database-handle put: writes the encoding of the value (spec section 4.2). -/
def putVal (db : Db) (k : String) (v : Value) : Db := putRaw db k (encode v)

/-- Database-handle get: returns none when absent, otherwise decodes the
stored bytes, propagating DataError (spec section 4.2). -/
def getVal (db : Db) (k : String) : Except Err (Option Value) :=
  match getRaw db k with
  | none => .ok none
  | some bytes =>
    match decode bytes with
    | .ok v => .ok (some v)
    | .error e => .error (.dataError e)

/-- Database-handle delete: removes the key and succeeds (no error) even if
the key was already absent (spec section 4.2). -/
def deleteVal (db : Db) (k : String) : Except Err Db := .ok (eraseKey db k)

/-- Strict typed getter (spec section 4.2, get_typed): returns the default
when the key is absent; fails with TypeMismatch when the stored tag differs
from the requested one; never coerces. -/
def getTyped (db : Db) (k : String) (t : Tag) (dflt : Value) : Except Err Value :=
  match getRaw db k with
  | none => .ok dflt
  | some bytes =>
    match decode bytes with
    | .error e => .error (.dataError e)
    | .ok v => if tagOf v = t then .ok v else .error .typeMismatch

theorem getRaw_putRaw (db : Db) (k : String) (v : List Nat) :
    getRaw (putRaw db k v) k = some v := by
  induction db with
  | nil => simp [putRaw, getRaw]
  | cons p rest ih =>
    obtain ⟨k1, v1⟩ := p
    rw [putRaw]
    by_cases h1 : charsLt k.data k1.data = true
    · rw [if_pos h1, getRaw, if_pos rfl]
    · rw [if_neg h1]
      by_cases h2 : k = k1
      · rw [if_pos h2, getRaw, if_pos rfl]
      · rw [if_neg h2, getRaw, if_neg h2, ih]

/-!
Range enumeration.  Bounds are optional keys; the repository treats a null,
undefined or empty-string bound as "no bound" on that side (test_kvstore.js,
enumeration task).  The cursor model positions at the first key admitted by
the lower bound and walks forward while the upper bound admits the key.
-/

/-- Lower-bound admission: no bound, or the empty string, admits every key;
otherwise keys at or above the bound are admitted. -/
def fromOk (f : Option String) (k : String) : Bool :=
  match f with
  | none => true
  | some s => s = "" || charsLe s.data k.data

/-- Upper-bound admission as the repository's tests pin it down: no bound, or
the empty string, admits every key; otherwise keys at or BELOW the bound are
admitted — the test asserts that enumerating to an existing key yields the
pair with that key, so the upper bound is inclusive in this tree. -/
def toOk (t : Option String) (k : String) : Bool :=
  match t with
  | none => true
  | some s => s = "" || charsLe k.data s.data

/-- Modelled from the spec (section 4.2 enumerate) and the repository's tests:
the enumerator's underlying pair sequence.  The cursor seeks to the first key
admitted by the lower bound, then yields pairs while the upper bound admits
them; the Rust implementation of nsIKeyValueDatabase.enumerate is not in the
tree, and the upper-bound inclusiveness is taken from test_kvstore.js. -/
def enumerateDb (db : Db) (f t : Option String) : Db :=
  (db.dropWhile (fun p => !fromOk f p.1)).takeWhile (fun p => toOk t p.1)

/-- Half-open range admission following the words of the specification
(section 4.2): from <= key < to, a pair whose key equals the upper bound
excluded; kept separate from the test-pinned model for comparison. -/
def specRangeOk (f t : Option String) (k : String) : Bool :=
  fromOk f k &&
    (match t with
     | none => true
     | some s => s = "" || charsLt k.data s.data)

theorem fromOk_mono (f : Option String) (k1 k2 : String)
    (hle : charsLe k1.data k2.data = true)
    (h : fromOk f k1 = true) : fromOk f k2 = true := by
  cases f with
  | none => rfl
  | some s =>
    simp only [fromOk, Bool.or_eq_true, decide_eq_true_eq] at h ⊢
    rcases h with h | h
    · exact Or.inl h
    · exact Or.inr (charsLe_trans s.data k1.data k2.data h hle)

theorem toOk_antimono (t : Option String) (k1 k2 : String)
    (hle : charsLe k1.data k2.data = true)
    (h : toOk t k2 = true) : toOk t k1 = true := by
  cases t with
  | none => rfl
  | some s =>
    simp only [toOk, Bool.or_eq_true, decide_eq_true_eq] at h ⊢
    rcases h with h | h
    · exact Or.inl h
    · exact Or.inr (charsLe_trans k1.data k2.data s.data hle h)

theorem takeWhile_eq_filter_of_antimono (q : String → Bool) :
    ∀ (l : Db), l.Pairwise (fun a b => charsLt a.1.data b.1.data = true) →
      (∀ k1 k2 : String, charsLe k1.data k2.data = true → q k2 = true → q k1 = true) →
      l.takeWhile (fun p => q p.1) = l.filter (fun p => q p.1) := by
  intro l
  induction l with
  | nil => intro _ _; rfl
  | cons p rest ih =>
    intro hsort hmono
    rw [List.pairwise_cons] at hsort
    by_cases hq : q p.1 = true
    · simp only [List.takeWhile_cons, List.filter_cons, hq, if_true,
        ih hsort.2 hmono]
    · have hall : ∀ x ∈ rest, q x.1 = false := by
        intro x hx
        by_contra hcon
        exact hq (hmono p.1 x.1 (charsLe_of_lt _ _ (hsort.1 x hx)) (by simpa using hcon))
      simp only [List.takeWhile_cons, List.filter_cons, hq, if_false, Bool.false_eq_true]
      rw [List.filter_eq_nil_iff.mpr (by intro x hx; simp [hall x hx])]

theorem enumerateDb_eq_filter (db : Db) (f t : Option String) (hdb : wfDb db) :
    enumerateDb db f t = db.filter (fun p => fromOk f p.1 && toOk t p.1) := by
  induction db with
  | nil => rfl
  | cons p rest ih =>
    rw [wfDb, List.pairwise_cons] at hdb
    by_cases hf : fromOk f p.1 = true
    · -- the cursor is already positioned: every later key also passes the
      -- lower bound, so the lower bound filters nothing from here on
      have hrest : ∀ x ∈ rest, fromOk f x.1 = true := fun x hx =>
        fromOk_mono f p.1 x.1 (charsLe_of_lt _ _ (hdb.1 x hx)) hf
      by_cases ht : toOk t p.1 = true
      · have hrw : rest.takeWhile (fun p => toOk t p.1) =
            rest.filter (fun p => toOk t p.1) :=
          takeWhile_eq_filter_of_antimono _ rest hdb.2 (toOk_antimono t)
        simp only [enumerateDb, List.dropWhile_cons, List.takeWhile_cons,
          List.filter_cons, hf, ht, Bool.not_true, Bool.and_self, if_true,
          Bool.false_eq_true, if_false, hrw]
        congr 1
        apply List.filter_congr
        intro x hx
        simp [hrest x hx]
      · have hall : ∀ x ∈ rest, toOk t x.1 = false := by
          intro x hx
          by_contra hcon
          exact ht (toOk_antimono t p.1 x.1 (charsLe_of_lt _ _ (hdb.1 x hx)) (by simpa using hcon))
        simp only [enumerateDb, List.dropWhile_cons, List.takeWhile_cons,
          List.filter_cons, hf, ht, Bool.not_true, Bool.and_false, if_true,
          Bool.false_eq_true, if_false]
        rw [List.filter_eq_nil_iff.mpr (by intro x hx; simp [hall x hx])]
    · -- the cursor seek skips this pair, and the filter drops it too
      have hstep : enumerateDb (p :: rest) f t = enumerateDb rest f t := by
        simp [enumerateDb, List.dropWhile_cons, hf]
      rw [hstep, List.filter_cons]
      simp only [hf, Bool.false_and, Bool.false_eq_true, if_false]
      exact ih hdb.2

/-!
Environment and named databases.  One on-disk environment holds the default
database plus any named databases; the engine keeps a catalog record for each
named database inside the default database, keyed by the database's name
(spec section 3, Database; test_kvstore.js getOrCreateNamedDatabases).
-/

/-- Modelled from the spec: one open environment.  The default database
doubles as the engine's catalog of named databases: each named database has a
control record in the default database under its own name. -/
structure Env where
  named : List (String × Db)
  defaultDb : Db

/-- Catalog well-formedness: every named database of the environment has a
control record in the default database stored under the database's name.  The
record bytes start with tag byte 0, which the value codec does not recognise
(the repository test observes DataError(UnknownType(0)) when reading one). -/
def wfEnv (env : Env) : Prop :=
  ∀ p ∈ env.named, getRaw env.defaultDb p.1 = some [0]

instance : DecidablePred wfEnv := fun env =>
  List.decidableBAll (fun p : String × Db => getRaw env.defaultDb p.1 = some [0])
    env.named

/-- List of names of the environment's named databases. -/
def namedNames (env : Env) : List String := env.named.map Prod.fst

/-- Modelled from the spec: put into the DEFAULT database of the environment.
A key equal to an existing named database's name collides with the engine's
catalog record and the write fails with a Conflict-class error, leaving the
environment unchanged; any other key is written normally (spec section 3,
Database invariant; test_kvstore.js observes LmdbError(Incompatible)). -/
def putDefault (env : Env) (k : String) (v : Value) : Except Err Env :=
  if k ∈ namedNames env then .error .conflict
  else .ok { env with defaultDb := putVal env.defaultDb k v }

/-!
The enumerator (spec section 4.5): a lazy, ordered, single-pass cursor over
the range selected at creation time.  getNext past exhaustion fails with a
NoMoreElements-class error (the xpcshell tests observe NS_ERROR_FAILURE).
-/

/-- Enumerator state: the pairs not yet yielded. -/
structure Enumerator where
  remaining : Db
deriving DecidableEq

/-- Creation of an enumerator from a database and a pair of bounds. -/
def mkEnumerator (db : Db) (f t : Option String) : Enumerator :=
  ⟨enumerateDb db f t⟩

/-- Modelled from the spec: hasMoreElements is true while a pair remains. -/
def hasMore (e : Enumerator) : Bool := !e.remaining.isEmpty

/-- Modelled from the spec: getNext yields the next pair and the advanced
enumerator, or fails with NoMoreElements when the enumerator is exhausted. -/
def getNext (e : Enumerator) : Except Err ((String × List Nat) × Enumerator) :=
  match e.remaining with
  | [] => .error .noMoreElements
  | p :: rest => .ok (p, ⟨rest⟩)

/-- Advance: move past one pair when possible, otherwise stay exhausted. -/
def stepEnum (e : Enumerator) : Enumerator :=
  match getNext e with
  | .ok (_, e1) => e1
  | .error _ => e

/-- Iterated advance. -/
def skipEnum : Nat → Enumerator → Enumerator
  | 0, e => e
  | n + 1, e => skipEnum n (stepEnum e)

theorem skipEnum_remaining (n : Nat) (l : Db) :
    (skipEnum n ⟨l⟩).remaining = l.drop n := by
  induction n generalizing l with
  | zero => rfl
  | succ n ih =>
    cases l with
    | nil =>
      rw [skipEnum]
      have hstep : stepEnum ⟨[]⟩ = ⟨[]⟩ := rfl
      rw [hstep, ih]
      simp [List.drop_nil]
    | cons p rest =>
      rw [skipEnum]
      have hstep : stepEnum ⟨p :: rest⟩ = ⟨rest⟩ := rfl
      rw [hstep, ih, List.drop_succ_cons]

end KV

namespace XulStoreJsm

/-!
Embedding of toolkit/components/xulstore/XULStore.jsm (the kvstore-backed
XUL-persistence layer).  Its store maps composite string keys to string
values; the composite key joins document URI, element id and attribute name
with a tab separator (makeKey).
-/

/-- String-valued store state of the XULStore database, keyed by the
composite key. -/
abbrev Store := List (String × String)

/-- Ordered insert for the string-valued store, mirroring KV.putRaw. -/
def putStr : Store → String → String → Store
  | [], k, v => [(k, v)]
  | (k1, v1) :: rest, k, v =>
    if KV.charsLt k.data k1.data then (k, v) :: (k1, v1) :: rest
    else if k = k1 then (k, v) :: rest
    else (k1, v1) :: putStr rest k v

/-- Lookup for the string-valued store. -/
def getStr : Store → String → Option String
  | [], _ => none
  | (k1, v1) :: rest, k => if k = k1 then some v1 else getStr rest k

/-- Embeds XULStore.jsm makeKey: docURI, id and attr joined by tabs. -/
def makeKey (docURI id attr : String) : String :=
  docURI ++ "\t" ++ id ++ "\t" ++ attr

/-- Embeds XULStore.jsm setValue: an id or attribute name longer than 512
characters is rejected with NS_ERROR_ILLEGAL_VALUE; a value longer than 4096
characters is silently truncated to its first 4096 characters before the put
(bug 319846 comment in the source). -/
def setValue (store : Store) (docURI id attr value : String) :
    Except KV.Err Store :=
  if id.length > 512 ∨ attr.length > 512 then .error .illegalValue
  else
    let value1 := if value.length > 4096 then ⟨value.data.take 4096⟩ else value
    .ok (putStr store (makeKey docURI id attr) value1)

/-- Embeds XULStore.jsm getValue: the stored string, or the empty string when
the key is absent. -/
def getValue (store : Store) (docURI id attr : String) : String :=
  (getStr store (makeKey docURI id attr)).getD ""

theorem getStr_putStr (store : Store) (k : String) (v : String) :
    getStr (putStr store k v) k = some v := by
  induction store with
  | nil => simp [putStr, getStr]
  | cons p rest ih =>
    obtain ⟨k1, v1⟩ := p
    rw [putStr]
    by_cases h1 : KV.charsLt k.data k1.data = true
    · rw [if_pos h1, getStr, if_pos rfl]
    · rw [if_neg h1]
      by_cases h2 : k = k1
      · rw [if_pos h2, getStr, if_pos rfl]
      · rw [if_neg h2, getStr, if_neg h2, ih]

end XulStoreJsm

namespace XulStoreJs

/-!
Embedding of toolkit/components/xulstore/XULStore.js (the synchronous
nsIXULStore component).  It guards every mutation behind the _saveAllowed
flag, which the profile-before-change observer notification clears; reads
are not guarded.
-/

/-- Component state: the _saveAllowed flag and the backing store. -/
structure St where
  saveAllowed : Bool
  store : XulStoreJsm.Store
deriving DecidableEq

/-- Embeds XULStore.js observe: the profile-before-change topic clears
_saveAllowed; every other topic is ignored. -/
def observe (st : St) (topic : String) : St :=
  if topic = "profile-before-change" then { st with saveAllowed := false }
  else st

/-- Embeds XULStore.js setValue: a cleared _saveAllowed flag makes the call
log and return (no error, no change); otherwise over-long ids or attribute
names are rejected, over-long values truncated, and the pair written. -/
def setValue (st : St) (docURI id attr value : String) : Except KV.Err St :=
  if !st.saveAllowed then .ok st
  else if id.length > 512 ∨ attr.length > 512 then .error .illegalValue
  else
    let value1 := if value.length > 4096 then (⟨value.data.take 4096⟩ : String) else value
    .ok { st with
      store := XulStoreJsm.putStr st.store (XulStoreJsm.makeKey docURI id attr) value1 }

/-- Embeds XULStore.js removeValue: a cleared _saveAllowed flag makes the
call return unchanged; otherwise the key is deleted. -/
def removeValue (st : St) (docURI id attr : String) : Except KV.Err St :=
  if !st.saveAllowed then .ok st
  else .ok { st with
    store := st.store.filter (fun p => p.1 ≠ XulStoreJsm.makeKey docURI id attr) }

/-- Embeds XULStore.js getValue (via getString with default ""): reads are
not guarded by _saveAllowed. -/
def getValue (st : St) (docURI id attr : String) : String :=
  (XulStoreJsm.getStr st.store (XulStoreJsm.makeKey docURI id attr)).getD ""

/-- Embeds XULStore.js hasValue. -/
def hasValue (st : St) (docURI id attr : String) : Bool :=
  (XulStoreJsm.getStr st.store (XulStoreJsm.makeKey docURI id attr)).isSome

end XulStoreJs

namespace NotifDB

/-!
Embedding of the NotificationDB operation queue (dom/notification source,
queueTask and runNextTask): a FIFO list of tasks drained by one runner; each
task's deferred promise is resolved with the payload on success or rejected
with the error on failure, after which the runner moves to the next task.
-/

/-- One queued task: an identifying request handle and its operation,
abstracted as the computation the runner executes for it. -/
structure Task (Op : Type) where
  id : Nat
  op : Op

/-- Settlement of a task's deferred promise. -/
inductive Settlement (Payload Error : Type)
  | resolved (p : Payload)
  | rejected (e : Error)
deriving DecidableEq

/-- Queue state: pending tasks, the task being run (null when idle), and the
trace of promise settlements in the order they were delivered. -/
structure QState (Op Payload Error : Type) where
  tasks : List (Task Op)
  runningTask : Option (Task Op)
  settled : List (Nat × Settlement Payload Error)

/-- Settlement of one executed result: resolve on success, reject on
failure (the then/catch pair in runNextTask). -/
def settleOf {Payload Error : Type} (r : Except Error Payload) :
    Settlement Payload Error :=
  match r with
  | .ok p => .resolved p
  | .error e => .rejected e

/-- Embeds NotificationDB.runNextTask: with an empty queue the runner goes
idle; otherwise it shifts the first task, executes it, settles its deferred
promise exactly once (resolve on success, reject on failure) and continues
with the next task. -/
def runNextTask {Op Payload Error : Type} (exec : Op → Except Error Payload)
    (st : QState Op Payload Error) : QState Op Payload Error :=
  match h : st.tasks with
  | [] => { st with runningTask := none }
  | t :: rest =>
    runNextTask exec
      { tasks := rest
        runningTask := some t
        settled := st.settled ++ [(t.id, settleOf (exec t.op))] }
termination_by st.tasks.length
decreasing_by simp [h]

/-- Embeds NotificationDB.queueTask: the task is appended to the queue and,
if the runner is idle, the queue is drained immediately. -/
def queueTask {Op Payload Error : Type} (exec : Op → Except Error Payload)
    (st : QState Op Payload Error) (t : Task Op) : QState Op Payload Error :=
  let st1 := { st with tasks := st.tasks ++ [t] }
  if st.runningTask.isNone then runNextTask exec st1 else st1

/-- Initial, idle queue state. -/
def initQ {Op Payload Error : Type} : QState Op Payload Error :=
  { tasks := [], runningTask := none, settled := [] }

/-- Submission of a batch of tasks in order. -/
def submitAll {Op Payload Error : Type} (exec : Op → Except Error Payload)
    (ts : List (Task Op)) (st : QState Op Payload Error) :
    QState Op Payload Error :=
  ts.foldl (queueTask exec) st

theorem runNextTask_spec {Op Payload Error : Type}
    (exec : Op → Except Error Payload) :
    ∀ (q : List (Task Op)) r s,
      runNextTask exec { tasks := q, runningTask := r, settled := s } =
        { tasks := [], runningTask := none,
          settled := s ++ q.map (fun t => (t.id, settleOf (exec t.op))) } := by
  intro q
  induction q with
  | nil => intro r s; rw [runNextTask]; simp
  | cons t rest ih =>
    intro r s
    rw [runNextTask]
    simp only []
    rw [ih]
    simp

end NotifDB

namespace KV

theorem eraseKey_of_not_has (db : Db) (k : String) (h : hasKey db k = false) :
    eraseKey db k = db := by
  induction db with
  | nil => rfl
  | cons p rest ih =>
    obtain ⟨k1, v1⟩ := p
    rw [hasKey, getRaw] at h
    by_cases hk : k = k1
    · rw [if_pos hk] at h
      simp at h
    · rw [if_neg hk] at h
      have hstep : eraseKey ((k1, v1) :: rest) k = (k1, v1) :: eraseKey rest k := by
        simp [eraseKey, List.filter_cons]
        exact fun he => hk he.symm
      rw [hstep, ih (by rw [hasKey]; exact h)]

theorem eraseKey_idem (db : Db) (k : String) :
    eraseKey (eraseKey db k) k = eraseKey db k := by
  rw [eraseKey, eraseKey, List.filter_filter]
  apply List.filter_congr
  intro a _
  simp

/-- Concrete database state matching the enumeration task of
test_kvstore.js: the four pairs put by the test, in the engine's ascending
key order (the float bit pattern is the IEEE-754 encoding of 56.78). -/
def testDb : Db :=
  putVal (putVal (putVal (putVal [] "int-key" (.intV 1234))
    "double-key" (.floatV 0x404C63D70A3D70A4))
    "string-key" (.textV "Héllo, wőrld!"))
    "bool-key" (.boolV true)

end KV

namespace NotifDB

theorem submitAll_settled {Op Payload Error : Type}
    (exec : Op → Except Error Payload) :
    ∀ (ts : List (Task Op)) (s : List (Nat × Settlement Payload Error)),
      submitAll exec ts { tasks := [], runningTask := none, settled := s } =
        { tasks := [], runningTask := none,
          settled := s ++ ts.map (fun t => (t.id, settleOf (exec t.op))) } := by
  intro ts
  induction ts with
  | nil => intro s; simp [submitAll]
  | cons t rest ih =>
    intro s
    rw [submitAll, List.foldl_cons]
    have hq : queueTask exec { tasks := [], runningTask := none, settled := s } t =
        { tasks := [], runningTask := none,
          settled := s ++ [(t.id, settleOf (exec t.op))] } := by
      rw [queueTask]
      simp only [Option.isNone_none, if_true]
      rw [runNextTask_spec]
      simp
    rw [hq, show List.foldl (queueTask exec) _ rest = submitAll exec rest _ from rfl,
      ih]
    simp

end NotifDB

/-!
Claim theorems.
-/

/-- C1, counterexample to the claim as stated: with the database of the
repository's enumeration test and the bounds (null, "int-key"), the pairs
yielded by enumerate are NOT the stored pairs in the half-open range
from <= k < to: the test (test_kvstore.js, "enumeration to a key that does
exist") asserts the pair whose key equals the upper bound is yielded, while
the half-open reading excludes it. -/
theorem C1_counterexample :
    KV.enumerateDb KV.testDb none (some "int-key") ≠
      KV.testDb.filter (fun p => KV.specRangeOk none (some "int-key") p.1) := by
  decide

/-- C1 (amended): for every well-formed database state and bounds from and
to, the pairs yielded by enumerate(from, to) are exactly the stored pairs
whose key k satisfies from <= k <= to under lexicographic ordering (the
upper bound is INCLUSIVE: a pair whose key equals the to bound is yielded),
where a None/empty bound imposes no constraint on that side. -/
theorem C1_theorem (db : KV.Db) (f t : Option String) (h : KV.wfDb db) :
    KV.enumerateDb db f t =
      db.filter (fun p => KV.fromOk f p.1 && KV.toOk t p.1) :=
  KV.enumerateDb_eq_filter db f t h

/-- C1 witness: the amended statement evaluated on the enumeration test's
database with the bounds (null, "int-key"). -/
theorem C1_witness :
    KV.wfDb KV.testDb ∧
      KV.enumerateDb KV.testDb none (some "int-key") =
        KV.testDb.filter (fun p => KV.fromOk none p.1 && KV.toOk (some "int-key") p.1) :=
  ⟨by decide, C1_theorem KV.testDb none (some "int-key") (by decide)⟩

/-- C2: for every well-formed Value variant v (null, boolean, 64-bit integer,
64-bit float by bit pattern, text), decoding the encoding of v yields v
again — the float bit pattern (hence NaN, the infinities and -0.0) preserved
bit-for-bit, the empty string included — and any value stored by put(k, v) is
returned unchanged by a subsequent get(k). -/
theorem C2_theorem (v : KV.Value) (hv : KV.wfValue v) (db : KV.Db) (k : String) :
    KV.decode (KV.encode v) = .ok v ∧
      KV.getVal (KV.putVal db k v) k = .ok (some v) := by
  refine ⟨KV.decode_encode v hv, ?_⟩
  have h1 := KV.getRaw_putRaw db k (KV.encode v)
  unfold KV.getVal
  rw [show KV.putRaw db k (KV.encode v) = KV.putVal db k v from rfl] at h1
  rw [h1]
  simp [KV.decode_encode v hv]

/-- C2 witness: the round trip evaluated at the canonical quiet-NaN bit
pattern, stored and retrieved under the key "k" in the empty database. -/
theorem C2_witness :
    KV.decode (KV.encode (KV.Value.floatV 0x7FF8000000000000)) =
        .ok (KV.Value.floatV 0x7FF8000000000000) ∧
      KV.getVal (KV.putVal [] "k" (KV.Value.floatV 0x7FF8000000000000)) "k" =
        .ok (some (KV.Value.floatV 0x7FF8000000000000)) :=
  C2_theorem (KV.Value.floatV 0x7FF8000000000000) (by decide) [] "k"

/-- C3: in an environment whose catalog is well formed, a put of the name of
an existing named database into the default database of that environment
fails with a Conflict-class error, and the catalog record stored in the
default database under that name is left in place. -/
theorem C3_theorem (env : KV.Env) (n : String) (v : KV.Value)
    (hwf : KV.wfEnv env) (hmem : n ∈ KV.namedNames env) :
    KV.putDefault env n v = .error .conflict ∧
      KV.getRaw env.defaultDb n = some [0] := by
  constructor
  · rw [KV.putDefault, if_pos hmem]
  · obtain ⟨p, hp, hpn⟩ := List.mem_map.mp hmem
    exact hpn ▸ hwf p hp

/-- Concrete environment with one named database "foo" and its catalog
record in the default database, as in the getOrCreateNamedDatabases test. -/
def testEnv : KV.Env := { named := [("foo", [])], defaultDb := [("foo", [0])] }

/-- C3 witness: the conflict evaluated on an environment holding a named
database "foo", as in the repository's getOrCreateNamedDatabases test. -/
theorem C3_witness :
    KV.putDefault testEnv "foo" (KV.Value.intV 5) = .error .conflict ∧
      KV.getRaw testEnv.defaultDb "foo" = some [0] :=
  C3_theorem testEnv "foo" (KV.Value.intV 5) (by decide) (by decide)

/-- C4: when the value stored under k has a tag other than the requested
type, the typed getter with a default fails with TypeMismatch and never
returns the supplied default or any other value. -/
theorem C4_theorem (db : KV.Db) (k : String) (v : KV.Value) (t : KV.Tag)
    (d : KV.Value) (hget : KV.getRaw db k = some (KV.encode v))
    (hv : KV.wfValue v) (ht : KV.tagOf v ≠ t) :
    KV.getTyped db k t d = .error .typeMismatch ∧
      ∀ w, KV.getTyped db k t d ≠ .ok w := by
  have hmain : KV.getTyped db k t d = .error .typeMismatch := by
    unfold KV.getTyped
    rw [hget]
    simp [KV.decode_encode v hv, ht]
  exact ⟨hmain, fun w hw => by rw [hmain] at hw; cases hw⟩

/-- C4 witness: after put("k", 42 as int), the float-typed getter with
default 1.0 fails with TypeMismatch rather than returning the default. -/
theorem C4_witness :
    KV.getTyped (KV.putVal [] "k" (KV.Value.intV 42)) "k" KV.Tag.floatT
        (KV.Value.floatV 1) = .error .typeMismatch ∧
      ∀ w, KV.getTyped (KV.putVal [] "k" (KV.Value.intV 42)) "k" KV.Tag.floatT
        (KV.Value.floatV 1) ≠ .ok w :=
  C4_theorem (KV.putVal [] "k" (KV.Value.intV 42)) "k" (KV.Value.intV 42)
    KV.Tag.floatT (KV.Value.floatV 1) (by decide) (by decide) (by decide)

/-- C5: delete(k) always succeeds — in particular without error when k is
absent, in which case the state is returned unchanged — and deleting twice
leaves the database identical to deleting once (delete is idempotent). -/
theorem C5_theorem (db : KV.Db) (k : String) :
    KV.deleteVal db k = .ok (KV.eraseKey db k) ∧
      KV.eraseKey (KV.eraseKey db k) k = KV.eraseKey db k ∧
      (KV.hasKey db k = false → KV.deleteVal db k = .ok db) := by
  refine ⟨rfl, KV.eraseKey_idem db k, fun h => ?_⟩
  rw [KV.deleteVal, KV.eraseKey_of_not_has db k h]

/-- C5 witness: deleting an absent key from the enumeration test's database
succeeds and changes nothing, and double deletion of "int-key" equals single
deletion. -/
theorem C5_witness :
    KV.deleteVal KV.testDb "absent" = .ok KV.testDb ∧
      KV.eraseKey (KV.eraseKey KV.testDb "int-key") "int-key" =
        KV.eraseKey KV.testDb "int-key" :=
  ⟨(C5_theorem KV.testDb "absent").2.2 (by decide),
    (C5_theorem KV.testDb "int-key").2.1⟩

/-- C6: for actual (nonempty) bounds with from lexicographically greater
than to, enumerate(from, to) yields no pairs at all — it is a total
function, so it succeeds rather than erroring — for every well-formed
database state, including states where the reversed bounds would select
pairs. -/
theorem C6_theorem (db : KV.Db) (f t : String) (hwf : KV.wfDb db)
    (hf : f ≠ "") (ht : t ≠ "") (hgt : KV.charsLt t.data f.data = true) :
    KV.enumerateDb db (some f) (some t) = [] := by
  rw [KV.enumerateDb_eq_filter db (some f) (some t) hwf]
  refine List.filter_eq_nil_iff.mpr ?_
  intro p _ hcon
  simp only [KV.fromOk, KV.toOk, Bool.and_eq_true, Bool.or_eq_true,
    decide_eq_true_eq] at hcon
  obtain ⟨hf1, ht1⟩ := hcon
  rcases hf1 with he | hle1
  · exact hf he
  rcases ht1 with he | hle2
  · exact ht he
  have hft : KV.charsLe f.data t.data = true :=
    KV.charsLe_trans f.data p.1.data t.data hle1 hle2
  have hne : KV.charsLt t.data f.data = false :=
    KV.charsLt_eq_false_of_le f.data t.data hft
  rw [hne] at hgt
  cases hgt

/-- C6 witness: the inverted bounds of the repository's enumeration test,
("ppppp", "ccccc"), on a database where the reversed bounds would select the
pair "int-key". -/
theorem C6_witness :
    KV.enumerateDb KV.testDb (some "ppppp") (some "ccccc") = [] :=
  C6_theorem KV.testDb "ppppp" "ccccc" (by decide) (by decide) (by decide)
    (by decide)

/-- C7: hasMore is false exactly when no further pair of the bound range
remains (after skipping n pairs of an enumerator over any well-formed
database, hasMore is false precisely when the range holds at most n pairs);
and an exhausted enumerator fails getNext with a NoMoreElements-class error
and never advances again. -/
theorem C7_theorem (db : KV.Db) (f t : Option String) (n : Nat)
    (e : KV.Enumerator) :
    (KV.hasMore (KV.skipEnum n (KV.mkEnumerator db f t)) = false ↔
      (KV.enumerateDb db f t).length ≤ n) ∧
    (KV.hasMore e = false →
      KV.getNext e = .error .noMoreElements ∧ KV.stepEnum e = e) := by
  constructor
  · rw [KV.mkEnumerator, KV.hasMore, KV.skipEnum_remaining]
    rw [Bool.not_eq_false', List.isEmpty_iff, List.drop_eq_nil_iff]
  · intro h
    rw [KV.hasMore, Bool.not_eq_false', List.isEmpty_iff] at h
    obtain ⟨l⟩ := e
    simp only at h
    subst h
    exact ⟨rfl, rfl⟩

/-- C7 witness: the enumerator over the enumeration test's database with no
bounds is exhausted exactly after its four pairs, and an exhausted enumerator
fails getNext with NoMoreElements and stays exhausted. -/
theorem C7_witness :
    (KV.hasMore (KV.skipEnum 4 (KV.mkEnumerator KV.testDb none none)) = false ↔
      (KV.enumerateDb KV.testDb none none).length ≤ 4) ∧
    (KV.getNext (KV.Enumerator.mk []) = .error .noMoreElements ∧
      KV.stepEnum (KV.Enumerator.mk []) = KV.Enumerator.mk []) :=
  ⟨(C7_theorem KV.testDb none none 4 (KV.Enumerator.mk [])).1,
    (C7_theorem KV.testDb none none 4 (KV.Enumerator.mk [])).2 (by decide)⟩

/-- C8: submitting any sequence of operations to the NotificationDB task
queue from the idle state executes them in FIFO submission order: the trace
of promise settlements is exactly one settlement per task, in submission
order, resolved with the payload on success and rejected with the error on
failure (never both, never zero), and afterwards the queue is drained and
the runner idle. -/
theorem C8_theorem (Op Payload Error : Type) (exec : Op → Except Error Payload)
    (ts : List (NotifDB.Task Op)) :
    (NotifDB.submitAll exec ts NotifDB.initQ).settled =
        ts.map (fun t => (t.id, NotifDB.settleOf (exec t.op))) ∧
      (NotifDB.submitAll exec ts NotifDB.initQ).tasks = [] ∧
      (NotifDB.submitAll exec ts NotifDB.initQ).runningTask = none := by
  have h := NotifDB.submitAll_settled exec ts []
  rw [show (NotifDB.initQ : NotifDB.QState Op Payload Error) =
    { tasks := [], runningTask := none, settled := [] } from rfl, h]
  simp

/-- C9: in the kvstore-backed XULStore calling layer, setValue rejects with
an IllegalArgument-class error whenever the id or the attribute name exceeds
512 characters, whereas a value longer than 4096 characters is not rejected:
it is silently truncated to exactly its first 4096 characters, and that
truncated string is what a subsequent read of the same key returns. -/
theorem C9_theorem (store : XulStoreJsm.Store) (docURI idArg attr value : String) :
    (idArg.length > 512 ∨ attr.length > 512 →
      XulStoreJsm.setValue store docURI idArg attr value = .error .illegalValue) ∧
    (idArg.length ≤ 512 → attr.length ≤ 512 → value.length > 4096 →
      XulStoreJsm.setValue store docURI idArg attr value =
        .ok (XulStoreJsm.putStr store (XulStoreJsm.makeKey docURI idArg attr)
          (String.mk (value.data.take 4096))) ∧
      (String.mk (value.data.take 4096)).length = 4096 ∧
      XulStoreJsm.getValue
          (XulStoreJsm.putStr store (XulStoreJsm.makeKey docURI idArg attr)
            (String.mk (value.data.take 4096))) docURI idArg attr =
        String.mk (value.data.take 4096)) := by
  constructor
  · intro h
    rw [XulStoreJsm.setValue, if_pos h]
  · intro h1 h2 h3
    refine ⟨?_, ?_, ?_⟩
    · rw [XulStoreJsm.setValue, if_neg (by omega)]
      simp only [h3, if_true]
    · have : value.length = value.data.length := rfl
      simp only [String.length, List.length_take]
      omega
    · rw [XulStoreJsm.getValue, XulStoreJsm.getStr_putStr]
      rfl

/-- Length of a string made of n copies of one character. -/
theorem length_mk_replicate (n : Nat) (c : Char) :
    (String.mk (List.replicate n c)).length = n := by
  show (List.replicate n c).length = n
  exact List.length_replicate n c

/-- Strings exercising the length limits of the truncation test: an id of
513 characters and a value of 4097 characters. -/
def longId : String := String.mk (List.replicate 513 'a')

/-- Over-long value for the truncation test. -/
def longValue : String := String.mk (List.replicate 4097 'v')

/-- C9 witness: a 513-character id is rejected with IllegalArgument, and a
4097-character value is accepted, stored truncated to its first 4096
characters, and read back with length 4096. -/
theorem C9_witness :
    XulStoreJsm.setValue [] "doc" longId "attr" "v" = .error .illegalValue ∧
      (XulStoreJsm.setValue [] "doc" "el" "attr" longValue =
        .ok (XulStoreJsm.putStr [] (XulStoreJsm.makeKey "doc" "el" "attr")
          (String.mk (longValue.data.take 4096))) ∧
      (String.mk (longValue.data.take 4096)).length = 4096 ∧
      XulStoreJsm.getValue
          (XulStoreJsm.putStr [] (XulStoreJsm.makeKey "doc" "el" "attr")
            (String.mk (longValue.data.take 4096))) "doc" "el" "attr" =
        String.mk (longValue.data.take 4096)) :=
  ⟨(C9_theorem [] "doc" longId "attr" "v").1
      (Or.inl (by simp only [longId, length_mk_replicate]; omega)),
    (C9_theorem [] "doc" "el" "attr" longValue).2 (by decide) (by decide)
      (by simp only [longValue, length_mk_replicate]; omega)⟩

/-- C10: the profile-before-change observer notification clears the
_saveAllowed flag; once the flag is cleared, every setValue and removeValue
call returns without error and without modifying the state in any way, while
getValue and hasValue are unaffected by the flag; while the flag is still
set, setValue writes through to the store. -/
theorem C10_theorem (st : XulStoreJs.St) (docURI idArg attr value : String) :
    (XulStoreJs.observe st "profile-before-change").saveAllowed = false ∧
    (st.saveAllowed = false →
      XulStoreJs.setValue st docURI idArg attr value = .ok st ∧
      XulStoreJs.removeValue st docURI idArg attr = .ok st) ∧
    XulStoreJs.getValue { st with saveAllowed := false } docURI idArg attr =
      XulStoreJs.getValue st docURI idArg attr ∧
    XulStoreJs.hasValue { st with saveAllowed := false } docURI idArg attr =
      XulStoreJs.hasValue st docURI idArg attr ∧
    (st.saveAllowed = true → ¬(idArg.length > 512 ∨ attr.length > 512) →
      XulStoreJs.setValue st docURI idArg attr value =
        .ok { st with
              store :=
                XulStoreJsm.putStr st.store
                  (XulStoreJsm.makeKey docURI idArg attr)
                  (if value.length > 4096 then String.mk (value.data.take 4096)
                    else value) }) := by
  refine ⟨?_, ?_, rfl, rfl, ?_⟩
  · rw [XulStoreJs.observe, if_pos rfl]
  · intro h
    constructor
    · rw [XulStoreJs.setValue, h]
      rfl
    · rw [XulStoreJs.removeValue, h]
      rfl
  · intro h hlen
    rw [XulStoreJs.setValue, h]
    simp only [Bool.not_true, Bool.false_eq_true, if_false, if_neg hlen]

/-- C10 witness: the notification clears the flag on a live state; with the
flag cleared, setValue and removeValue on an empty store are exact no-ops;
with the flag set, setValue writes the pair through. -/
theorem C10_witness :
    (XulStoreJs.observe (XulStoreJs.St.mk true []) "profile-before-change").saveAllowed
        = false ∧
      XulStoreJs.setValue (XulStoreJs.St.mk false []) "doc" "el" "attr" "v" =
        .ok (XulStoreJs.St.mk false []) ∧
      XulStoreJs.removeValue (XulStoreJs.St.mk false []) "doc" "el" "attr" =
        .ok (XulStoreJs.St.mk false []) ∧
      XulStoreJs.setValue (XulStoreJs.St.mk true []) "doc" "el" "attr" "v" =
        .ok (XulStoreJs.St.mk true
          (XulStoreJsm.putStr [] (XulStoreJsm.makeKey "doc" "el" "attr")
            (if ("v" : String).length > 4096
             then String.mk (("v" : String).data.take 4096) else "v"))) :=
  ⟨(C10_theorem (XulStoreJs.St.mk true []) "doc" "el" "attr" "v").1,
    ((C10_theorem (XulStoreJs.St.mk false []) "doc" "el" "attr" "v").2.1 rfl).1,
    ((C10_theorem (XulStoreJs.St.mk false []) "doc" "el" "attr" "v").2.1 rfl).2,
    (C10_theorem (XulStoreJs.St.mk true []) "doc" "el" "attr" "v").2.2.2.2 rfl
      (by decide)⟩
